import Mathlib

/-!
Shallow embedding of `src/app.py` (Vrindavan sales-call auditor).

Python strings are modelled as lists of Unicode codepoints (`List Nat`);
`str.strip` is modelled over the ASCII whitespace characters, `str.split('###')`
by a fuel-indexed scanner with Python's leftmost non-overlapping semantics,
and `sub in s` / `s.lower()` by explicit codepoint functions.  Calls into
external services and libraries (the Gemini API, PyPDF2, `json.loads`,
openpyxl) are modelled at their boundary: the value the library hands back
(or `none` for a raised exception) is a parameter of the embedded function.
-/

set_option maxRecDepth 4096

/-! ## Definitions embedded from `src/app.py` -/

/-- A Python string, as its list of codepoints. -/
abbrev Str := List Nat

/-- Codepoints of a Lean string literal, for writing concrete `Str` values. -/
def strCodes (s : String) : Str := s.data.map Char.toNat

/-- ASCII whitespace, the relevant fragment of what Python's `str.strip()`
removes (space, tab, newline, vertical tab, form feed, carriage return). -/
def isSpace (n : Nat) : Bool := n == 32 || n == 9 || n == 10 || n == 11 || n == 12 || n == 13

/-- Remove trailing whitespace (the right half of Python's `strip`). -/
def stripRight (s : Str) : Str := (s.reverse.dropWhile isSpace).reverse

/-- Python's `s.strip()`: drop leading and trailing whitespace. -/
def pyStrip (s : Str) : Str := stripRight (s.dropWhile isSpace)

/-- Python's `s.lower()` on one codepoint (ASCII fragment). -/
def toLowerN (n : Nat) : Nat := if 65 ≤ n ∧ n ≤ 90 then n + 32 else n

/-- Python's `s.lower()`. -/
def pyLower (s : Str) : Str := s.map toLowerN

/-- Does `s` start with `needle`? (helper for substring containment). -/
def startsWithL : Str → Str → Bool
  | [], _ => true
  | _ :: _, [] => false
  | a :: as, b :: bs => a == b && startsWithL as bs

/-- Python's `needle in s`: `needle` occurs as a contiguous substring of `s`. -/
def containsSub (needle : Str) : Str → Bool
  | [] => needle.isEmpty
  | c :: t => startsWithL needle (c :: t) || containsSub needle t

/-- Scanner for `raw.split('###')` (codepoint of `#` is 35): Python's
leftmost, non-overlapping occurrences of the three-character separator.
`fuel` bounds the recursion; `pySplitHashes` supplies `s.length`, which is
always enough. -/
def splitGo : Nat → Str → Str → List Str
  | _, acc, [] => [acc]
  | 0, acc, c :: rest => [acc ++ c :: rest]
  | fuel + 1, acc, c :: rest =>
    if c = 35 ∧ rest.take 2 = [35, 35] then acc :: splitGo fuel [] (rest.drop 2)
    else splitGo fuel (acc ++ [c]) rest

/-- Python's `raw.split('###')`. -/
def pySplitHashes (s : Str) : List Str := splitGo s.length [] s

/-- `parts = [x.strip() for x in raw.split('###')]` applied to
`raw = response.text.strip()` (app.py lines 88-89). -/
def parseParts (raw : Str) : List Str :=
  ((pySplitHashes (pyStrip raw)).map pyStrip)

/-- `while len(parts) < 17: parts.append("-")` (app.py line 90); 45 is `-`. -/
def padParts (l : List Str) : List Str :=
  l ++ List.replicate (17 - l.length) [45]

/-- The 17 dict keys of the record built by `analyze_call` (app.py 92-101). -/
def analyzeKeys : List String :=
  ["CSM Name", "Customer Name", "Lead Intent",
   "⚠️ Brand Trust", "📝 Brand Detail",
   "⚠️ Value", "📝 Value Detail",
   "⚠️ ROI", "📝 ROI Detail",
   "⚠️ Spiritual", "📝 Spiritual Detail",
   "⚠️ Technical", "📝 Technical Detail",
   "Urgency: 6L+2L Offer", "Urgency: Price Movement",
   "Family/Spouse Objections", "Pitch Flow Adherence"]

/-- The dict `analyze_call` returns on the success path (app.py 88-101),
as an association list in the source's insertion order. -/
def analyze_call_record (raw : Str) : List (String × Str) :=
  let parts := padParts (parseParts raw)
  [("CSM Name", parts.getD 0 []), ("Customer Name", parts.getD 1 []),
   ("Lead Intent", parts.getD 2 []),
   ("⚠️ Brand Trust", parts.getD 3 []), ("📝 Brand Detail", parts.getD 4 []),
   ("⚠️ Value", parts.getD 5 []), ("📝 Value Detail", parts.getD 6 []),
   ("⚠️ ROI", parts.getD 7 []), ("📝 ROI Detail", parts.getD 8 []),
   ("⚠️ Spiritual", parts.getD 9 []), ("📝 Spiritual Detail", parts.getD 10 []),
   ("⚠️ Technical", parts.getD 11 []), ("📝 Technical Detail", parts.getD 12 []),
   ("Urgency: 6L+2L Offer", parts.getD 13 []), ("Urgency: Price Movement", parts.getD 14 []),
   ("Family/Spouse Objections", parts.getD 15 []), ("Pitch Flow Adherence", parts.getD 16 [])]

/-- `analyze_call` (app.py 57-103): the external call `model.generate_content`
either produces a reply text (`some raw`, already the `.text` of the
response) or raises (`none`); the bare `except:` turns any exception into
the return value `None`. -/
def analyze_call (response : Option Str) : Option (List (String × Str)) :=
  match response with
  | none => none
  | some raw => some (analyze_call_record raw)

/-- A concrete 10-segment reply, for the C1 witness. -/
def tenSegReply : Str := strCodes "a###b###c###d###e###f###g###h###i###j"

/-- A concrete 18-segment reply, for the C2 witness. -/
def eighteenSegReply : Str :=
  strCodes "a###b###c###d###e###f###g###h###i###j###k###l###m###n###o###p###q###r"

/-- Does the string begin with a whitespace character? -/
def startsSpace (v : Str) : Bool :=
  match v.head? with
  | some c => isSpace c
  | none => false

/-- Does the string end with a whitespace character? -/
def endsSpace (v : Str) : Bool :=
  match v.getLast? with
  | some c => isSpace c
  | none => false

/-- `'flash' in m.lower() and '1.5' in m` (app.py line 45). -/
def flashCond (m : Str) : Bool :=
  containsSub (strCodes "flash") (pyLower m) && containsSub (strCodes "1.5") m

/-- `'pro' in m.lower() and '1.5' in m` (app.py line 47). -/
def proCond (m : Str) : Bool :=
  containsSub (strCodes "pro") (pyLower m) && containsSub (strCodes "1.5") m

/-- Python truthiness of `chosen_model` (None or a string). -/
def pyFalsy : Option Str → Bool
  | none => true
  | some s => s.isEmpty

/-- The model-selection core of `get_gemini_model` (app.py 42-53), over the
list of available model identifiers: two `next(..., None)` searches guarded
by `if not chosen_model`, the `all_models[0]` fallback guarded by
`if not chosen_model and all_models`, and the final `if chosen_model`
truthiness test (the `try`/`except` for an invalid credential and the
wrapping into `genai.GenerativeModel` sit outside this selection logic). -/
def get_gemini_model (all_models : List Str) : Option Str :=
  let c1 := all_models.find? flashCond
  let c2 := if pyFalsy c1 then all_models.find? proCond else c1
  let c3 := if pyFalsy c2 then
      (match all_models with
       | [] => c2
       | m :: _ => some m)
    else c2
  if pyFalsy c3 then none else c3

/-- `'flash'`/`'1.5'` tests both case-insensitive, as the claim words them. -/
def flashCondCI (m : Str) : Bool :=
  containsSub (strCodes "flash") (pyLower m) && containsSub (strCodes "1.5") (pyLower m)

/-- `'pro'`/`'1.5'` tests both case-insensitive, as the claim words them. -/
def proCondCI (m : Str) : Bool :=
  containsSub (strCodes "pro") (pyLower m) && containsSub (strCodes "1.5") (pyLower m)

/-- The selection policy in the claim's words — case-insensitive substring
tests in priority order (flash+1.5, then pro+1.5, then the first
identifier) — amended only in the fallback arm: when no identifier matches
either pattern and the first identifier is the empty string, the result is
an absence signal (Python truthiness of `''`). -/
def selectorPolicy (ms : List Str) : Option Str :=
  match ms.find? flashCondCI with
  | some m => some m
  | none =>
    match ms.find? proCondCI with
    | some m => some m
    | none =>
      match ms with
      | [] => none
      | m :: _ => if m.isEmpty then none else some m

/-- `extract_text_from_pdf` (app.py 28-36), at the PyPDF2 boundary:
`parsed` is `some pages` when `PyPDF2.PdfReader` succeeds and every
`page.extract_text()` call returns (the page texts in page order), and
`none` when the bytes are corrupt, not a PDF, or any page raises inside the
`try`; the `except` handler returns the empty string.  The loop
`text += page.extract_text() + "\n"` is the fold; 10 is `\n`. -/
def extract_text_from_pdf (parsed : Option (List Str)) : Str :=
  match parsed with
  | none => []
  | some pages => pages.foldl (fun text page => text ++ page ++ [10]) []

/-- Python's `s.replace(pat, '')` for a non-empty `pat`: remove all leftmost
non-overlapping occurrences.  `fuel` bounds the recursion; `pyRemoveAll`
supplies `s.length`, which is always enough. -/
def removeAllGo (pat : Str) : Nat → Str → Str
  | _, [] => []
  | 0, c :: rest => c :: rest
  | fuel + 1, c :: rest =>
    if (c :: rest).take pat.length = pat then removeAllGo pat fuel ((c :: rest).drop pat.length)
    else c :: removeAllGo pat fuel rest

/-- Python's `s.replace(pat, '')`. -/
def pyRemoveAll (pat s : Str) : Str := removeAllGo pat s.length s

/-- `response.text.replace("```json", "").replace("```", "").strip()`
(app.py line 121). -/
def cleanSummaryReply (txt : Str) : Str :=
  pyStrip (pyRemoveAll (strCodes "```") (pyRemoveAll (strCodes "```json") txt))

/-- The `except:` result of `generate_csm_summary` (app.py line 124). -/
def summarySentinel (csm_name : Str) : List (String × Str) :=
  [("CSM Name", csm_name), ("Strengths", strCodes "Error"),
   ("Areas of Improvement", strCodes "Error")]

/-- `generate_csm_summary` (app.py 105-124) at its external boundaries:
`response` is the reply text of `model.generate_content` (`none` when that
call raised) and `loads` models `json.loads`, returning the parsed mapping
or `none` when the cleaned text is not valid JSON; either failure lands in
the bare `except:`, which returns the sentinel record for this salesperson. -/
def generate_csm_summary (loads : Str → Option (List (String × Str)))
    (csm_name : Str) (response : Option Str) : List (String × Str) :=
  match response with
  | none => summarySentinel csm_name
  | some txt =>
    match loads (cleanSummaryReply txt) with
    | some j => j
    | none => summarySentinel csm_name

/-- A stand-in `json.loads` oracle for the C7 witness: accepts exactly the
one-character text `X` (codepoint 88). -/
def loadsW : Str → Option (List (String × Str)) :=
  fun s => if s = [88] then some [("CSM Name", [97])] else none

/-- The fixed header-cell style of app.py 142-143: `PatternFill` arguments
and `Font` arguments. -/
structure HeaderStyle where
  fillStart : String
  fillEnd : String
  fillType : String
  fontColor : String
  fontBold : Bool
deriving DecidableEq

/-- `PatternFill(start_color="1F497D", end_color="1F497D", fill_type="solid")`
and `Font(color="FFFFFF", bold=True)`. -/
def headerStyleOf : HeaderStyle :=
  { fillStart := "1F497D", fillEnd := "1F497D", fillType := "solid",
    fontColor := "FFFFFF", fontBold := true }

/-- The per-column styling loop of `to_excel` (app.py 134-145) on one sheet,
at the openpyxl boundary: the sheet's columns are given by their letters
(`col[0].column_letter`); each gets width
`80 if sheet == 'CSM Summary' and col_letter in ['B','C'] else 40` and the
fixed fill and font on its header cell in row 1. -/
def styleSheet (sheetName : String) (cols : List String) :
    List (String × Nat × HeaderStyle) :=
  cols.map (fun letter =>
    (letter,
      (if sheetName = "CSM Summary" ∧ (letter = "B" ∨ letter = "C") then 80 else 40),
      headerStyleOf))

/-- `to_excel` (app.py 126-147) at the pandas/openpyxl boundary: each
DataFrame is abstracted to its list of column letters; `df_summary is not
None` is the `Option`.  The result is the workbook's sheets in insertion
order, each with its styled columns. -/
def to_excel (dfACols : List String) (dfSCols : Option (List String)) :
    List (String × List (String × Nat × HeaderStyle)) :=
  match dfSCols with
  | none => [("Call Analysis", styleSheet "Call Analysis" dfACols)]
  | some cs =>
    [("Call Analysis", styleSheet "Call Analysis" dfACols),
     ("CSM Summary", styleSheet "CSM Summary" cs)]

/-- The `for attempt in range(3)` loop body of app.py 177-183: attempt `k`
calls `analyze_call`, whose external reply is `responses k` (`none` when the
API call raised); `if data:` is Python dict truthiness, so only a non-empty
dict is appended and breaks the loop (the `time.sleep(2)` backoff does not
affect the produced records). -/
def attemptLoop (responses : Nat → Option Str) : Nat → Nat → Option (List (String × Str))
  | _, 0 => none
  | k, n + 1 =>
    match analyze_call (responses k) with
    | some d => if d.isEmpty then attemptLoop responses (k + 1) n else some d
    | none => attemptLoop responses (k + 1) n

/-- One transcript's contribution to `results` (app.py 175-183): skipped
when the stripped extracted text is falsy (`if text.strip():`); otherwise
the first successful analysis within 3 attempts is appended after
`data['File Name'] = uploaded_file.name` (dict insertion order puts the new
key last); nothing is appended when all 3 attempts fail. -/
def processTranscript (fname text : Str) (responses : Nat → Option Str) :
    List (List (String × Str)) :=
  if (pyStrip text).isEmpty then []
  else
    match attemptLoop responses 0 3 with
    | some d => [d ++ [("File Name", fname)]]
    | none => []

/-- Concrete attempt outcomes for the C9 witness: the first two attempts
raise, the third returns the reply `x`. -/
def responsesW : Nat → Option Str := fun i => if i = 2 then some [120] else none

/-! ## Lemmas and claim theorems -/

theorem splitGo_nil_arg (f : Nat) (acc : Str) : splitGo f acc [] = [acc] := by
  cases f <;> rfl

theorem splitGo_length_pos : ∀ (f : Nat) (acc s : Str), 0 < (splitGo f acc s).length := by
  intro f
  induction f with
  | zero => intro acc s; cases s <;> simp [splitGo]
  | succ n ih =>
    intro acc s
    cases s with
    | nil => simp [splitGo]
    | cons c rest =>
      simp only [splitGo]
      split
      · simp
      · exact ih _ _

/-- The fuel argument is irrelevant once it is at least the input length. -/
theorem splitGo_fuel_ge : ∀ (n : Nat) (s : Str), s.length ≤ n →
    ∀ (f : Nat) (acc : Str), s.length ≤ f → splitGo f acc s = splitGo s.length acc s := by
  intro n
  induction n with
  | zero =>
    intro s hs f acc _
    have hnil : s = [] := List.eq_nil_of_length_eq_zero (Nat.le_zero.mp hs)
    subst hnil
    simp [splitGo_nil_arg]
  | succ n ih =>
    intro s hs f acc hf
    cases s with
    | nil => simp [splitGo_nil_arg]
    | cons c rest =>
      cases f with
      | zero => simp at hf
      | succ f' =>
        have hrest : rest.length ≤ n := by simpa using Nat.succ_le_succ_iff.mp hs
        have hf' : rest.length ≤ f' := by simpa using Nat.succ_le_succ_iff.mp hf
        simp only [List.length_cons, splitGo]
        split
        · have hd2 : (rest.drop 2).length ≤ n := by
            simp only [List.length_drop]; omega
          have hd2f : (rest.drop 2).length ≤ f' := by
            simp only [List.length_drop]; omega
          have hd2r : (rest.drop 2).length ≤ rest.length := by
            simp only [List.length_drop]; omega
          rw [ih _ hd2 _ _ hd2f, ih _ hd2 _ _ hd2r]
        · rw [ih _ hrest _ _ hf', ih _ hrest _ _ le_rfl]

/-- A string with fewer than three characters is returned as a single segment. -/
theorem splitGo_short (acc : Str) (c : Nat) (rest : Str) (h : rest.length < 2) :
    splitGo (c :: rest).length acc (c :: rest) = [acc ++ c :: rest] := by
  cases rest with
  | nil => simp [splitGo]
  | cons d rest' =>
    cases rest' with
    | nil => simp [splitGo]
    | cons e r => simp only [List.length_cons] at h; omega

/-- Extending the scanned string can only alter its final segment: all earlier
segments survive as a prefix of the extended string's segmentation. -/
theorem splitGo_append_take : ∀ (n : Nat) (s : Str), s.length ≤ n → ∀ (t acc : Str),
    (splitGo (s ++ t).length acc (s ++ t)).take ((splitGo s.length acc s).length - 1)
      = (splitGo s.length acc s).take ((splitGo s.length acc s).length - 1) := by
  intro n
  induction n with
  | zero =>
    intro s hs t acc
    have hnil : s = [] := List.eq_nil_of_length_eq_zero (Nat.le_zero.mp hs)
    subst hnil
    simp [splitGo_nil_arg]
  | succ n ih =>
    intro s hs t acc
    cases s with
    | nil => simp [splitGo_nil_arg]
    | cons c rest =>
      have hrest : rest.length ≤ n := by simpa using Nat.succ_le_succ_iff.mp hs
      by_cases hP : c = 35 ∧ rest.take 2 = [35, 35]
      · -- separator found at the head, in both the short and the extended string
        have hlen2 : 2 ≤ rest.length := by
          have h' := congrArg List.length hP.2
          simp only [List.length_take, List.length_cons, List.length_nil] at h'
          omega
        have htk : (rest ++ t).take 2 = rest.take 2 := List.take_append_of_le_length hlen2
        have hdr : (rest ++ t).drop 2 = rest.drop 2 ++ t := List.drop_append_of_le_length hlen2
        have hP' : c = 35 ∧ (rest ++ t).take 2 = [35, 35] := ⟨hP.1, by rw [htk]; exact hP.2⟩
        simp only [List.cons_append, List.length_cons, splitGo, List.append_eq]
        rw [if_pos hP, if_pos hP', hdr]
        -- normalise both fuels to the exact input lengths
        have e1 : splitGo (rest ++ t).length [] (rest.drop 2 ++ t)
            = splitGo (rest.drop 2 ++ t).length [] (rest.drop 2 ++ t) :=
          splitGo_fuel_ge ((rest.drop 2 ++ t).length) (rest.drop 2 ++ t) le_rfl
            ((rest ++ t).length) []
            (by simp only [List.length_append, List.length_drop]; omega)
        have e2 : splitGo rest.length [] (rest.drop 2)
            = splitGo (rest.drop 2).length [] (rest.drop 2) :=
          splitGo_fuel_ge ((rest.drop 2).length) (rest.drop 2) le_rfl rest.length []
            (by simp only [List.length_drop]; omega)
        rw [e1, e2]
        have hd2n : (rest.drop 2).length ≤ n := by
          simp only [List.length_drop]; omega
        have hpos := splitGo_length_pos (rest.drop 2).length [] (rest.drop 2)
        obtain ⟨m, hm⟩ : ∃ m, (splitGo (rest.drop 2).length [] (rest.drop 2)).length = m + 1 :=
          ⟨_, (Nat.succ_pred_eq_of_pos hpos).symm⟩
        have hih := ih (rest.drop 2) hd2n t []
        rw [hm] at hih
        simp only [Nat.add_sub_cancel] at hih
        simp only [List.length_cons, hm, Nat.add_sub_cancel, List.take_succ_cons]
        rw [hih]
      · -- no separator at the head of `s`
        by_cases h2 : 2 ≤ rest.length
        · have htk : (rest ++ t).take 2 = rest.take 2 := List.take_append_of_le_length h2
          have hP' : ¬(c = 35 ∧ (rest ++ t).take 2 = [35, 35]) := by
            rw [htk]; exact hP
          simp only [List.cons_append, List.length_cons, splitGo, List.append_eq]
          rw [if_neg hP, if_neg hP']
          exact ih rest hrest t (acc ++ [c])
        · -- `s` is too short to contain the separator at all: one segment, take 0
          have hshort : rest.length < 2 := by omega
          rw [show ((c :: rest) ++ t) = c :: (rest ++ t) from rfl]
          rw [splitGo_short acc c rest hshort]
          simp

/-- All segments but the last survive any extension of the split string. -/
theorem pySplitHashes_append_take (s t : Str) :
    (pySplitHashes (s ++ t)).take ((pySplitHashes s).length - 1)
      = (pySplitHashes s).take ((pySplitHashes s).length - 1) := by
  unfold pySplitHashes
  exact splitGo_append_take s.length s le_rfl t []

theorem dropWhile_append_cons (p : Nat → Bool) (a b : Str) (c : Nat) (hc : p c = false) :
    (a ++ c :: b).dropWhile p = a.dropWhile p ++ c :: b := by
  induction a with
  | nil => simp [List.dropWhile_cons, hc]
  | cons x a' ih =>
    cases hx : p x with
    | true => simpa [List.dropWhile_cons, hx] using ih
    | false => simp [List.dropWhile_cons, hx]

theorem stripRight_append_cons (a b : Str) (c : Nat) (hc : isSpace c = false) :
    stripRight (a ++ c :: b) = a ++ c :: stripRight b := by
  unfold stripRight
  rw [List.reverse_append, List.reverse_cons, List.append_assoc, List.singleton_append,
    dropWhile_append_cons isSpace b.reverse (a.reverse) c hc]
  simp

/-- Every string is its right-stripped form followed by (whitespace) leftovers. -/
theorem stripRight_append_rest (l : Str) :
    l = stripRight l ++ (l.reverse.takeWhile isSpace).reverse := by
  unfold stripRight
  rw [← List.reverse_append, List.takeWhile_append_dropWhile, List.reverse_reverse]

/-- `pyStrip (raw ++ "###" ++ extra)` is `pyStrip raw` extended on the right. -/
theorem pyStrip_append_sep (raw extra : Str) :
    ∃ u : Str, pyStrip (raw ++ [35, 35, 35] ++ extra) = pyStrip raw ++ u := by
  have h35 : isSpace 35 = false := by decide
  refine ⟨(((raw.dropWhile isSpace).reverse.takeWhile isSpace).reverse ++ [35, 35])
      ++ 35 :: stripRight extra, ?_⟩
  unfold pyStrip
  have h1 : (raw ++ [35, 35, 35] ++ extra).dropWhile isSpace
      = raw.dropWhile isSpace ++ [35, 35, 35] ++ extra := by
    rw [List.append_assoc, show ([35, 35, 35] ++ extra) = 35 :: ([35, 35] ++ extra) from rfl,
      dropWhile_append_cons isSpace raw ([35, 35] ++ extra) 35 h35]
    simp
  rw [h1]
  have h2 : raw.dropWhile isSpace ++ [35, 35, 35] ++ extra
      = (raw.dropWhile isSpace ++ [35, 35]) ++ 35 :: extra := by simp
  rw [h2, stripRight_append_cons _ _ 35 h35]
  conv_lhs => rw [stripRight_append_rest (raw.dropWhile isSpace)]
  simp [List.append_assoc]

theorem analyze_call_record_fst (raw : Str) :
    (analyze_call_record raw).map Prod.fst = analyzeKeys := rfl

theorem analyze_call_record_snd_getD (raw : Str) (i : Nat) (hi : i < 17) :
    ((analyze_call_record raw).map Prod.snd).getD i []
      = (padParts (parseParts raw)).getD i [] := by
  interval_cases i <;> rfl

theorem padParts_getD_pad (l : List Str) (i : Nat) (h1 : l.length ≤ i) (h2 : i < 17) :
    (padParts l).getD i [] = [45] := by
  unfold padParts
  rw [List.getD_append_right _ _ _ _ h1]
  rw [List.getD_eq_getElem _ _ (by simp only [List.length_replicate]; omega)]
  simp

theorem getD_eq_of_take_eq {A B : List Str} {m i : Nat}
    (h : A.take m = B.take m) (hi : i < m) :
    A.getD i ([] : Str) = B.getD i [] := by
  rw [List.getD_eq_getElem?_getD, List.getD_eq_getElem?_getD,
    ← @List.getElem?_take_of_lt _ A m i hi, ← @List.getElem?_take_of_lt _ B m i hi, h]

/-- If the first 17 padded segments agree, the whole record agrees. -/
theorem analyze_call_record_congr (raw raw' : Str)
    (h : ∀ i : Nat, i < 17 →
      (padParts (parseParts raw)).getD i [] = (padParts (parseParts raw')).getD i []) :
    analyze_call_record raw = analyze_call_record raw' := by
  simp only [analyze_call_record]
  rw [h 0 (by omega), h 1 (by omega), h 2 (by omega), h 3 (by omega), h 4 (by omega),
    h 5 (by omega), h 6 (by omega), h 7 (by omega), h 8 (by omega), h 9 (by omega),
    h 10 (by omega), h 11 (by omega), h 12 (by omega), h 13 (by omega), h 14 (by omega),
    h 15 (by omega), h 16 (by omega)]

/-- Claim C1: a reply splitting into fewer than 17 segments — including the
wholly empty reply, which yields the single empty segment — still produces a
mapping with all 17 fixed keys, every key beyond the present segments being
the placeholder `"-"` (codepoint 45). -/
theorem C1_short_reply_pads :
    parseParts [] = [[]] ∧
    ∀ raw : Str, (parseParts raw).length < 17 →
      ((analyze_call_record raw).map Prod.fst = analyzeKeys ∧
        ∀ i : Nat, (parseParts raw).length ≤ i → i < 17 →
          ((analyze_call_record raw).map Prod.snd).getD i [] = [45]) := by
  refine ⟨by decide, ?_⟩
  intro raw _h
  refine ⟨analyze_call_record_fst raw, ?_⟩
  intro i h1 h2
  rw [analyze_call_record_snd_getD raw i h2]
  exact padParts_getD_pad _ i h1 h2

theorem C1_short_reply_pads_witness :
    (parseParts tenSegReply).length = 10 ∧
    ((analyze_call_record tenSegReply).map Prod.snd).getD 10 [] = [45] ∧
    ((analyze_call_record tenSegReply).map Prod.snd).getD 16 [] = [45] :=
  ⟨by decide,
    (C1_short_reply_pads.2 tenSegReply (by decide)).2 10 (by decide) (by decide),
    (C1_short_reply_pads.2 tenSegReply (by decide)).2 16 (by decide) (by decide)⟩

/-- Claim C2: with more than 17 segments, the 17 keys are populated from
exactly the first 17 segments, and the record is unchanged by appending
further `###`-separated material to the reply. -/
theorem C2_long_reply_first17 :
    ∀ raw : Str, 17 < (parseParts raw).length →
      ((∀ i : Nat, i < 17 →
          ((analyze_call_record raw).map Prod.snd).getD i [] = (parseParts raw).getD i []) ∧
        ∀ extra : Str,
          analyze_call_record (raw ++ [35, 35, 35] ++ extra) = analyze_call_record raw) := by
  intro raw hlen
  constructor
  · intro i hi
    rw [analyze_call_record_snd_getD raw i hi]
    exact List.getD_append _ _ _ _ (by omega)
  · intro extra
    -- the split of the extended reply agrees with the original on all but
    -- the original's last segment
    obtain ⟨u, hu⟩ := pyStrip_append_sep raw extra
    have hn : (parseParts raw).length = (pySplitHashes (pyStrip raw)).length := by
      simp [parseParts]
    set n := (pySplitHashes (pyStrip raw)).length with hndef
    have htake : (pySplitHashes (pyStrip (raw ++ [35, 35, 35] ++ extra))).take (n - 1)
        = (pySplitHashes (pyStrip raw)).take (n - 1) := by
      rw [hu]; exact pySplitHashes_append_take (pyStrip raw) u
    have hparts : (parseParts (raw ++ [35, 35, 35] ++ extra)).take (n - 1)
        = (parseParts raw).take (n - 1) := by
      simp only [parseParts, ← List.map_take, htake]
    have hlen' : n - 1 ≤ (parseParts (raw ++ [35, 35, 35] ++ extra)).length := by
      have hc := congrArg List.length hparts
      simp only [List.length_take, hn] at hc ⊢
      omega
    apply analyze_call_record_congr
    intro i hi
    have hi' : i < n - 1 := by omega
    rw [padParts]
    rw [List.getD_append _ _ _ _ (by omega), padParts]
    rw [List.getD_append _ _ _ _ (by omega)]
    exact getD_eq_of_take_eq hparts hi'

theorem C2_long_reply_first17_witness :
    (parseParts eighteenSegReply).length = 18 ∧
    ((analyze_call_record eighteenSegReply).map Prod.snd).getD 0 []
      = (parseParts eighteenSegReply).getD 0 [] ∧
    analyze_call_record (eighteenSegReply ++ [35, 35, 35] ++ strCodes "zzz")
      = analyze_call_record eighteenSegReply :=
  ⟨by decide,
    (C2_long_reply_first17 eighteenSegReply (by decide)).1 0 (by decide),
    (C2_long_reply_first17 eighteenSegReply (by decide)).2 (strCodes "zzz")⟩

/-- Claim C6: whenever the generation attempt raises (modelled as `none`
handed back by the external call), `analyze_call` returns the absence value;
whenever it does return a mapping, that mapping always carries all 17 keys
(so no partially populated mapping is ever returned). -/
theorem C6_exception_absence :
    analyze_call none = none ∧
    ∀ (response : Option Str) (r : List (String × Str)),
      analyze_call response = some r → r.map Prod.fst = analyzeKeys := by
  refine ⟨rfl, ?_⟩
  intro response r h
  cases response with
  | none => exact absurd h (by simp [analyze_call])
  | some raw =>
    simp only [analyze_call, Option.some.injEq] at h
    rw [← h]
    exact analyze_call_record_fst raw

theorem C6_exception_absence_witness :
    (analyze_call_record []).map Prod.fst = analyzeKeys :=
  C6_exception_absence.2 (some []) (analyze_call_record []) rfl

theorem head?_dropWhile_not (p : Nat → Bool) :
    ∀ (l : Str) (c : Nat), (l.dropWhile p).head? = some c → p c = false := by
  intro l
  induction l with
  | nil => intro c h; simp at h
  | cons x xs ih =>
    intro c h
    by_cases hx : p x = true
    · rw [List.dropWhile_cons_of_pos hx] at h
      exact ih c h
    · rw [List.dropWhile_cons_of_neg hx] at h
      simp only [List.head?_cons, Option.some.injEq] at h
      subst h
      exact Bool.eq_false_iff.mpr hx

theorem endsSpace_stripRight (l : Str) : endsSpace (stripRight l) = false := by
  unfold stripRight endsSpace
  rw [List.getLast?_reverse]
  cases h : (l.reverse.dropWhile isSpace).head? with
  | none => rfl
  | some c => exact head?_dropWhile_not isSpace l.reverse c h

theorem startsSpace_pyStrip (x : Str) : startsSpace (pyStrip x) = false := by
  unfold startsSpace
  cases hsr : stripRight (x.dropWhile isSpace) with
  | nil => simp [pyStrip, hsr]
  | cons c v =>
    have hrest := stripRight_append_rest (x.dropWhile isSpace)
    rw [hsr] at hrest
    have hc : (x.dropWhile isSpace).head? = some c := by
      rw [hrest]; rfl
    have : isSpace c = false := head?_dropWhile_not isSpace x c hc
    simp [pyStrip, hsr, this]

theorem endsSpace_pyStrip (x : Str) : endsSpace (pyStrip x) = false := by
  unfold pyStrip
  exact endsSpace_stripRight _

/-- Every entry of the padded segment list is clean on both ends. -/
theorem padded_getD_clean (raw : Str) (i : Nat) :
    startsSpace ((padParts (parseParts raw)).getD i []) = false ∧
      endsSpace ((padParts (parseParts raw)).getD i []) = false := by
  rw [List.getD_eq_getElem?_getD]
  cases h : (padParts (parseParts raw))[i]? with
  | none => exact ⟨rfl, rfl⟩
  | some v =>
    have hv : v ∈ padParts (parseParts raw) := List.getElem?_mem h
    simp only [Option.getD_some]
    unfold padParts at hv
    rcases List.mem_append.mp hv with hv | hv
    · unfold parseParts at hv
      obtain ⟨x, _, rfl⟩ := List.mem_map.mp hv
      exact ⟨startsSpace_pyStrip x, endsSpace_pyStrip x⟩
    · rw [List.eq_of_mem_replicate hv]
      exact ⟨by decide, by decide⟩

/-- Claim C10: every one of the 17 field values in the mapping returned by
`analyze_call` is stripped of leading and trailing whitespace (the whole
reply is stripped before splitting and each `###` segment is individually
stripped), so no returned field value begins or ends with whitespace. -/
theorem C10_fields_stripped :
    ∀ (raw : Str) (v : Str), v ∈ (analyze_call_record raw).map Prod.snd →
      startsSpace v = false ∧ endsSpace v = false := by
  intro raw v hv
  simp only [analyze_call_record, List.map_cons, List.map_nil, List.mem_cons,
    List.not_mem_nil, or_false] at hv
  rcases hv with h|h|h|h|h|h|h|h|h|h|h|h|h|h|h|h|h <;>
    (subst h; exact padded_getD_clean raw _)

theorem C10_fields_stripped_witness :
    startsSpace (strCodes "Alice") = false ∧ endsSpace (strCodes "Alice") = false :=
  C10_fields_stripped (strCodes " Alice ###x") (strCodes "Alice") (by decide)

theorem beq_toLowerN (a b : Nat) (ha : a < 65) : (a == toLowerN b) = (a == b) := by
  unfold toLowerN
  split
  · next hb =>
    have h1 : (a == b + 32) = false := by simp only [beq_eq_false_iff_ne, ne_eq]; omega
    have h2 : (a == b) = false := by simp only [beq_eq_false_iff_ne, ne_eq]; omega
    rw [h1, h2]
  · rfl

theorem startsWithL_pyLower (needle : Str) (hn : ∀ x ∈ needle, x < 65) :
    ∀ hay : Str, startsWithL needle (pyLower hay) = startsWithL needle hay := by
  induction needle with
  | nil => intro hay; cases hay <;> rfl
  | cons a as ih =>
    intro hay
    cases hay with
    | nil => rfl
    | cons b bs =>
      have ha : a < 65 := hn a (by simp)
      show startsWithL (a :: as) (toLowerN b :: pyLower bs) = _
      simp only [startsWithL]
      rw [beq_toLowerN a b ha, ih (fun x hx => hn x (by simp [hx])) bs]

/-- A needle of codepoints below 65 (e.g. digits and `.`) occurs in the
lowercased string exactly when it occurs in the original: `'1.5' in m` is
case-insensitive. -/
theorem containsSub_pyLower_digits (needle : Str) (hn : ∀ x ∈ needle, x < 65) :
    ∀ hay : Str, containsSub needle (pyLower hay) = containsSub needle hay := by
  intro hay
  induction hay with
  | nil => rfl
  | cons c t ih =>
    show containsSub needle (toLowerN c :: pyLower t) = _
    simp only [containsSub]
    rw [show toLowerN c :: pyLower t = pyLower (c :: t) from rfl,
      startsWithL_pyLower needle hn (c :: t), ih]

theorem containsSub_ne_nil (needle : Str) (h : needle ≠ []) (hay : Str)
    (hc : containsSub needle hay = true) : hay ≠ [] := by
  intro hnil
  subst hnil
  simp only [containsSub, List.isEmpty_iff] at hc
  exact h hc

theorem flashCondCI_eq : flashCondCI = flashCond := by
  funext m
  unfold flashCondCI flashCond
  rw [containsSub_pyLower_digits (strCodes "1.5") (by decide) m]

theorem proCondCI_eq : proCondCI = proCond := by
  funext m
  unfold proCondCI proCond
  rw [containsSub_pyLower_digits (strCodes "1.5") (by decide) m]

/-- Claim C3, counterexample: for the non-empty identifier list `[""]` the
selector returns the absence signal (the fallback `all_models[0]` is the
empty string, which is falsy in Python, so `if chosen_model:` fails),
contradicting "returns an absence signal only when the list is empty". -/
theorem C3_counterexample_empty_identifier :
    get_gemini_model [[]] = none ∧ ([[]] : List Str) ≠ [] := by
  constructor
  · rfl
  · intro h
    exact absurd h (by decide)

/-- Claim C3 (amended): the selector picks, by case-insensitive substring
tests in priority order, first an identifier containing both "flash" and
"1.5", else one containing both "pro" and "1.5", else the first identifier,
and returns an absence signal only when the list is empty or when the
fallback arm selects an empty identifier; on the claim's example list it
selects the "flash"+"1.5" identifier. -/
theorem C3_selector_policy :
    (∀ ms : List Str, get_gemini_model ms = selectorPolicy ms) ∧
    get_gemini_model
        [strCodes "models/gemini-1.0-pro", strCodes "models/gemini-1.5-flash-001",
         strCodes "models/gemini-1.5-pro-002"]
      = some (strCodes "models/gemini-1.5-flash-001") := by
  constructor
  · intro ms
    unfold get_gemini_model selectorPolicy
    rw [flashCondCI_eq, proCondCI_eq]
    cases h1 : ms.find? flashCond with
    | some m =>
      have hcond := List.find?_some h1
      unfold flashCond at hcond
      have hm : m ≠ [] :=
        containsSub_ne_nil _ (by decide) m ((Bool.and_eq_true _ _).mp hcond).2
      have hfal : pyFalsy (some m) = false := by
        unfold pyFalsy
        simpa using hm
      simp [hfal]
    | none =>
      cases h2 : ms.find? proCond with
      | some m =>
        have hcond := List.find?_some h2
        unfold proCond at hcond
        have hm : m ≠ [] :=
          containsSub_ne_nil _ (by decide) m ((Bool.and_eq_true _ _).mp hcond).2
        have hem : m.isEmpty = false := by simpa using hm
        simp [pyFalsy, hem]
      | none =>
        cases ms with
        | nil => rfl
        | cons m rest =>
          cases hm : m.isEmpty with
          | true => simp [pyFalsy, hm]
          | false => simp [pyFalsy, hm]
  · rfl

/-- Claim C4: corrupt or non-PDF bytes, or any page failing to parse (any
exception in the reader loop, modelled as `none` at the PyPDF2 boundary),
make the extractor return the empty string; the embedded function is total,
so no exception propagates. -/
theorem C4_extract_failure_empty : extract_text_from_pdf none = [] := rfl

theorem foldl_append_newline (pages : List Str) :
    ∀ init : Str, pages.foldl (fun text page => text ++ page ++ [10]) init
      = init ++ (pages.map (fun p => p ++ [10])).flatten := by
  induction pages with
  | nil => intro init; simp
  | cons p ps ih =>
    intro init
    simp only [List.foldl_cons, List.map_cons, List.flatten_cons, ih]
    simp [List.append_assoc]

/-- Claim C5: for a valid PDF whose pages all parse, the extractor returns
the concatenation of the page texts in page order, each followed by a
newline, and the result is non-empty when there is at least one page. -/
theorem C5_extract_success :
    ∀ pages : List Str, pages ≠ [] →
      extract_text_from_pdf (some pages)
          = (pages.map (fun p => p ++ [10])).flatten ∧
        extract_text_from_pdf (some pages) ≠ [] := by
  intro pages hne
  have hjoin : extract_text_from_pdf (some pages)
      = (pages.map (fun p => p ++ [10])).flatten := by
    show pages.foldl _ [] = _
    simpa using foldl_append_newline pages []
  refine ⟨hjoin, ?_⟩
  cases pages with
  | nil => exact absurd rfl hne
  | cons p ps =>
    rw [hjoin]
    simp

theorem C5_extract_success_witness :
    extract_text_from_pdf (some [[104, 105], [33]]) = [104, 105, 10, 33, 10] ∧
    extract_text_from_pdf (some [[104, 105], [33]]) ≠ [] :=
  ⟨by decide, (C5_extract_success [[104, 105], [33]] (by decide)).2⟩

/-- Claim C7: when the reply is valid JSON once fenced-code markers are
stripped, the parsed mapping is returned as-is; when the reply cannot be
parsed or the API call raised, the result is exactly the sentinel
`CSM Name ↦ name, Strengths ↦ "Error", Areas of Improvement ↦ "Error"`;
the embedded function is total, so no exception escapes and the caller's
loop over salespeople continues. -/
theorem C7_summary_error_sentinel :
    ∀ (loads : Str → Option (List (String × Str))) (name : Str),
      (∀ txt j, loads (cleanSummaryReply txt) = some j →
        generate_csm_summary loads name (some txt) = j) ∧
      (∀ txt, loads (cleanSummaryReply txt) = none →
        generate_csm_summary loads name (some txt) = summarySentinel name) ∧
      generate_csm_summary loads name none = summarySentinel name ∧
      summarySentinel name
        = [("CSM Name", name), ("Strengths", strCodes "Error"),
           ("Areas of Improvement", strCodes "Error")] := by
  intro loads name
  refine ⟨?_, ?_, rfl, rfl⟩
  · intro txt j h
    simp [generate_csm_summary, h]
  · intro txt h
    simp [generate_csm_summary, h]

theorem C7_summary_error_sentinel_witness :
    generate_csm_summary loadsW [99] (some (strCodes "```json X``` "))
        = [("CSM Name", [97])] ∧
      generate_csm_summary loadsW [99] (some [63]) = summarySentinel [99] ∧
      generate_csm_summary loadsW [99] none = summarySentinel [99] :=
  ⟨(C7_summary_error_sentinel loadsW [99]).1 (strCodes "```json X``` ") _ (by decide),
    (C7_summary_error_sentinel loadsW [99]).2.1 [63] (by decide),
    (C7_summary_error_sentinel loadsW [99]).2.2.1⟩

/-- Claim C8: without a summary collection the workbook has exactly the one
sheet `Call Analysis`; with one, exactly the two sheets `Call Analysis` and
`CSM Summary`; on the summary sheet columns `B` and `C` get width 80 and
every other column on either sheet gets width 40; and every column's header
cell on every sheet carries the fixed solid fill and bold white font. -/
theorem C8_workbook_sheets_styles :
    ∀ (dfACols cs : List String),
      ((to_excel dfACols none).map Prod.fst = ["Call Analysis"] ∧
        (to_excel dfACols (some cs)).map Prod.fst = ["Call Analysis", "CSM Summary"]) ∧
      (∀ e ∈ styleSheet "Call Analysis" dfACols,
        e.2.1 = 40 ∧ e.2.2 = headerStyleOf) ∧
      (∀ e ∈ styleSheet "CSM Summary" cs,
        (e.2.1 = if e.1 = "B" ∨ e.1 = "C" then 80 else 40) ∧ e.2.2 = headerStyleOf) := by
  intro dfACols cs
  refine ⟨⟨rfl, rfl⟩, ?_, ?_⟩
  · intro e he
    obtain ⟨letter, _, rfl⟩ := List.mem_map.mp he
    refine ⟨?_, rfl⟩
    rw [if_neg]
    intro hcon
    exact absurd hcon.1 (by decide)
  · intro e he
    obtain ⟨letter, _, rfl⟩ := List.mem_map.mp he
    refine ⟨?_, rfl⟩
    simp

theorem C8_workbook_sheets_styles_witness :
    (("B", (80 : Nat), headerStyleOf) ∈ styleSheet "CSM Summary" ["A", "B", "C"]) ∧
    ((("B", (80 : Nat), headerStyleOf).2.1
        = if ("B", (80 : Nat), headerStyleOf).1 = "B" ∨ ("B", (80 : Nat), headerStyleOf).1 = "C"
          then 80 else 40) ∧
      ("B", (80 : Nat), headerStyleOf).2.2 = headerStyleOf) :=
  ⟨by decide,
    (C8_workbook_sheets_styles ["A", "B"] ["A", "B", "C"]).2.2
      ("B", (80 : Nat), headerStyleOf) (by decide)⟩

theorem attemptLoop_zero (rs : Nat → Option Str) (k : Nat) :
    attemptLoop rs k 0 = none := rfl

theorem attemptLoop_succ (rs : Nat → Option Str) (k n : Nat) :
    attemptLoop rs k (n + 1)
      = match analyze_call (rs k) with
        | some d => if d.isEmpty then attemptLoop rs (k + 1) n else some d
        | none => attemptLoop rs (k + 1) n := rfl

theorem analyze_call_record_not_empty (raw : Str) :
    (analyze_call_record raw).isEmpty = false := rfl

/-- Claim C9: for a transcript with non-empty extracted text the
orchestrator makes at most 3 analysis attempts (the contribution depends
only on the outcomes of attempts 0, 1 and 2); if every attempt raises, the
transcript contributes no record; if attempt `j < 3` is the first to return
a reply, exactly one record — that reply's analysis, carrying the
originating filename — is contributed. -/
theorem C9_retry_loop :
    ∀ (fname text : Str) (responses : Nat → Option Str),
      (pyStrip text).isEmpty = false →
      (((∀ i : Nat, i < 3 → responses i = none) →
          processTranscript fname text responses = []) ∧
        (∀ (j : Nat) (raw : Str), j < 3 → (∀ i : Nat, i < j → responses i = none) →
          responses j = some raw →
          processTranscript fname text responses
            = [analyze_call_record raw ++ [("File Name", fname)]]) ∧
        (∀ responses' : Nat → Option Str, (∀ i : Nat, i < 3 → responses i = responses' i) →
          processTranscript fname text responses
            = processTranscript fname text responses')) := by
  intro fname text rs htext
  have hloop : ∀ rs' : Nat → Option Str,
      attemptLoop rs' 0 3
        = match analyze_call (rs' 0) with
          | some d => if d.isEmpty then
              (match analyze_call (rs' 1) with
               | some d => if d.isEmpty then
                   (match analyze_call (rs' 2) with
                    | some d => if d.isEmpty then none else some d
                    | none => none)
                 else some d
               | none =>
                  match analyze_call (rs' 2) with
                  | some d => if d.isEmpty then none else some d
                  | none => none)
            else some d
          | none =>
            match analyze_call (rs' 1) with
            | some d => if d.isEmpty then
                (match analyze_call (rs' 2) with
                 | some d => if d.isEmpty then none else some d
                 | none => none)
              else some d
            | none =>
              match analyze_call (rs' 2) with
              | some d => if d.isEmpty then none else some d
              | none => none := by
    intro rs'
    rfl
  refine ⟨?_, ?_, ?_⟩
  · intro hall
    simp only [processTranscript, htext, Bool.false_eq_true, if_false, hloop,
      hall 0 (by omega), hall 1 (by omega), hall 2 (by omega), analyze_call]
  · intro j raw hj hbefore hj'
    interval_cases j
    · simp only [processTranscript, htext, Bool.false_eq_true, if_false, hloop, hj',
        analyze_call, analyze_call_record_not_empty, if_false]
    · simp only [processTranscript, htext, Bool.false_eq_true, if_false, hloop,
        hbefore 0 (by omega), hj', analyze_call, analyze_call_record_not_empty, if_false]
    · simp only [processTranscript, htext, Bool.false_eq_true, if_false, hloop,
        hbefore 0 (by omega), hbefore 1 (by omega), hj', analyze_call,
        analyze_call_record_not_empty, if_false]
  · intro rs' hsame
    simp only [processTranscript, htext, Bool.false_eq_true, if_false, hloop,
      hsame 0 (by omega), hsame 1 (by omega), hsame 2 (by omega)]

theorem C9_retry_loop_witness :
    processTranscript [102] [97] responsesW
      = [analyze_call_record [120] ++ [("File Name", [102])]] :=
  (C9_retry_loop [102] [97] responsesW (by decide)).2.1 2 [120] (by decide)
    (fun i hi => by interval_cases i <;> rfl) rfl
